import Mathlib

/-!
Verification of the noon calendar server (src/server.js and
src/services/uaeDatesService.ts): a shallow embedding in Lean 4 of the
persistence layer, the settings endpoint, the discovery job, the
notification job and the special-dates provider, together with theorems
settling the specification's claims about them.
-/

namespace Noon

/-! ## JSON values

The server persists every document through `JSON.stringify` / `JSON.parse`
(`writeJSON` / `readJSON` in src/server.js, lines 26-49).  `JValue` models
the JSON data the app stores: null, booleans, integer numbers (every number
the app persists - timestamps, day counts - is an integer), strings, arrays
and objects.  Strings are lists of characters.  The serializer below models
`JSON.stringify(data)`; the code passes `(data, null, 2)`, whose
pretty-printing differs from the compact rendering only by inter-token
whitespace that `JSON.parse` ignores, so the model renders compactly.  The
parser models the subset of `JSON.parse` these documents exercise: the
escape sequences the serializer emits (backslash before a quote or a
backslash), no exponent or fraction forms, no inter-token whitespace. -/

inductive JValue where
  | null : JValue
  | jbool : Bool → JValue
  | jnum : Int → JValue
  | jstr : List Char → JValue
  | jarr : List JValue → JValue
  | jobj : List (List Char × JValue) → JValue

/-- The double-quote character. -/
def quoteC : Char := Char.ofNat 34

/-- The backslash character. -/
def backslashC : Char := Char.ofNat 92

/-- The opening-brace character. -/
def lbraceC : Char := Char.ofNat 123

/-- The closing-brace character. -/
def rbraceC : Char := Char.ofNat 125

/-- Decimal digit test on a character (code points 48 to 57). -/
def digitQ (c : Char) : Bool := 48 ≤ c.toNat && c.toNat ≤ 57

/-- The numeric value of a decimal digit character. -/
def digVal (c : Char) : Nat := c.toNat - 48

/-- The decimal rendering of a natural number, most significant digit
first, as `JSON.stringify` prints an integer. -/
def natChars (n : Nat) : List Char :=
  if _h : n < 10 then [Nat.digitChar n]
  else natChars (n / 10) ++ [Nat.digitChar (n % 10)]
decreasing_by exact Nat.div_lt_self (by omega) (by omega)

/-- The decimal rendering of an integer. -/
def serInt (n : Int) : List Char :=
  if n < 0 then '-' :: natChars n.natAbs else natChars n.toNat

/-- String-body escaping: a quote or a backslash is preceded by a
backslash, every other character is emitted as itself. -/
def escChar (c : Char) : List Char :=
  if c = quoteC ∨ c = backslashC then [backslashC, c] else [c]

/-- A serialized string: quote, escaped body, quote. -/
def serStr (s : List Char) : List Char :=
  quoteC :: (s.flatMap escChar ++ [quoteC])

mutual

/-- The compact rendering of a JSON value, modelling `JSON.stringify`. -/
def serialize : JValue → List Char
  | .null => ['n', 'u', 'l', 'l']
  | .jbool true => ['t', 'r', 'u', 'e']
  | .jbool false => ['f', 'a', 'l', 's', 'e']
  | .jnum n => serInt n
  | .jstr s => serStr s
  | .jarr [] => ['[', ']']
  | .jarr (x :: xs) => '[' :: (serialize x ++ serItemsRest xs ++ [']'])
  | .jobj [] => [lbraceC, rbraceC]
  | .jobj (kv :: kvs) => lbraceC :: (serMember kv ++ serMembersRest kvs ++ [rbraceC])

/-- One object member: serialized key, colon, serialized value. -/
def serMember : List Char × JValue → List Char
  | (k, v) => serStr k ++ ':' :: serialize v

/-- The later items of an array, each preceded by a comma. -/
def serItemsRest : List JValue → List Char
  | [] => []
  | x :: xs => ',' :: (serialize x ++ serItemsRest xs)

/-- The later members of an object, each preceded by a comma. -/
def serMembersRest : List (List Char × JValue) → List Char
  | [] => []
  | kv :: kvs => ',' :: (serMember kv ++ serMembersRest kvs)

end

/-- Horner evaluation of a digit-character list. -/
def natFold (ds : List Char) : Nat := ds.foldl (fun a c => a * 10 + digVal c) 0

/-- Parse a nonempty run of decimal digits; the remaining input follows. -/
def parseNum (cs : List Char) : Option (Nat × List Char) :=
  let ds := cs.takeWhile digitQ
  if ds.isEmpty then none
  else some (natFold ds, cs.dropWhile digitQ)

/-- Parse a string body up to its closing quote, undoing `escChar`: the
character after a backslash is taken literally. -/
def parseStrBody : List Char → Option (List Char × List Char)
  | [] => none
  | c :: r =>
    if c = quoteC then some ([], r)
    else if c = backslashC then
      match r with
      | [] => none
      | e :: r2 =>
        match parseStrBody r2 with
        | some (s, rest) => some (e :: s, rest)
        | none => none
    else
      match parseStrBody r with
      | some (s, rest) => some (c :: s, rest)
      | none => none

/-- Consume an expected literal character sequence, returning what
follows it, or `none` when the input does not start with it. -/
def expectChars : List Char → List Char → Option (List Char)
  | [], rest => some rest
  | _ :: _, [] => none
  | p :: ps, c :: r => if c = p then expectChars ps r else none

mutual

/-- Parse one JSON value; `fuel` bounds the nesting work and a unit is
spent on every recursive descent. -/
def parseVal : Nat → List Char → Option (JValue × List Char)
  | 0, _ => none
  | _ + 1, [] => none
  | fuel + 1, c :: r =>
    if c = 'n' then
      match expectChars ['u', 'l', 'l'] r with
      | some r2 => some (.null, r2)
      | none => none
    else if c = 't' then
      match expectChars ['r', 'u', 'e'] r with
      | some r2 => some (.jbool true, r2)
      | none => none
    else if c = 'f' then
      match expectChars ['a', 'l', 's', 'e'] r with
      | some r2 => some (.jbool false, r2)
      | none => none
    else if c = quoteC then
      match parseStrBody r with
      | some (s, r2) => some (.jstr s, r2)
      | none => none
    else if c = '-' then
      match parseNum r with
      | some (n, r2) => some (.jnum (-(n : Int)), r2)
      | none => none
    else if digitQ c then
      match parseNum (c :: r) with
      | some (n, r2) => some (.jnum (n : Int), r2)
      | none => none
    else if c = '[' then
      match r with
      | [] => none
      | c2 :: r2 =>
        if c2 = ']' then some (.jarr [], r2)
        else
          match parseItemsLoop fuel (c2 :: r2) with
          | some (vs, r3) => some (.jarr vs, r3)
          | none => none
    else if c = lbraceC then
      match r with
      | [] => none
      | c2 :: r2 =>
        if c2 = rbraceC then some (.jobj [], r2)
        else
          match parseMembersLoop fuel (c2 :: r2) with
          | some (kvs, r3) => some (.jobj kvs, r3)
          | none => none
    else none

/-- Parse the items of a nonempty array, from the first item to the
closing bracket. -/
def parseItemsLoop : Nat → List Char → Option (List JValue × List Char)
  | 0, _ => none
  | fuel + 1, cs =>
    match parseVal fuel cs with
    | some (v, rest) =>
      match rest with
      | [] => none
      | c2 :: r2 =>
        if c2 = ',' then
          match parseItemsLoop fuel r2 with
          | some (vs, r3) => some (v :: vs, r3)
          | none => none
        else if c2 = ']' then some ([v], r2)
        else none
    | none => none

/-- Parse the members of a nonempty object, from the first key to the
closing brace. -/
def parseMembersLoop : Nat → List Char → Option (List (List Char × JValue) × List Char)
  | 0, _ => none
  | fuel + 1, cs =>
    match cs with
    | [] => none
    | c :: r =>
      if c = quoteC then
        match parseStrBody r with
        | some (k, r1) =>
          match r1 with
          | [] => none
          | c3 :: r2 =>
            if c3 = ':' then
              match parseVal fuel r2 with
              | some (v, r3) =>
                match r3 with
                | [] => none
                | c4 :: r4 =>
                  if c4 = ',' then
                    match parseMembersLoop fuel r4 with
                    | some (kvs, r5) => some ((k, v) :: kvs, r5)
                    | none => none
                  else if c4 = rbraceC then some ([(k, v)], r4)
                  else none
              | none => none
            else none
        | none => none
      else none

end

/-- Whether a JSON value is primitive (not an array, not an object): a
settings document is a flat object whose fields are all primitive. -/
def isPrim : JValue → Bool
  | .jarr _ => false
  | .jobj _ => false
  | _ => true

/-- Parse a whole document, modelling `JSON.parse`: the single value must
consume the entire input. -/
def parseJSON (cs : List Char) : Option JValue :=
  match parseVal (cs.length + 1) cs with
  | some (v, []) => some v
  | _ => none

/-! ## Persistence store (src/server.js, lines 26-49)

A file is `none` when absent and `some content` otherwise; content is the
character list the code reads with `fs.readFile(..., 'utf-8')`.  `writeJSON`
stores `JSON.stringify(data)` (its own try/catch only logs, so the model
writes unconditionally).  `readJSON` follows the code line by line: a
missing file (ENOENT) is created with the default and the default returned;
an empty (after trimming) file yields the default; content that parses
yields the parsed value; anything else is logged and the default returned,
the file untouched.  The model is a total function: no branch throws. -/

/-- Whitespace test for the `data.trim() === ''` check. -/
def wsQ (c : Char) : Bool := c = ' ' || c = '\n' || c = '\t' || c = '\r'

/-- Leading and trailing whitespace removed, modelling `String.trim`. -/
def trimChars (cs : List Char) : List Char :=
  ((cs.dropWhile wsQ).reverse.dropWhile wsQ).reverse

/-- The stored rendering of a value, modelling `JSON.stringify(data)`. -/
def stringify (v : JValue) : List Char := serialize v

/-- Model of `writeJSON`: the file now holds the rendering of `data`. -/
def writeJSON (data : JValue) : Option (List Char) := some (stringify data)

/-- Model of `readJSON`: the file afterwards, and the value returned. -/
def readJSON (file : Option (List Char)) (defaultValue : JValue) :
    Option (List Char) × JValue :=
  match file with
  | none => (writeJSON defaultValue, defaultValue)
  | some data =>
    if trimChars data = [] then (some data, defaultValue)
    else
      match parseJSON data with
      | some v => (some data, v)
      | none => (some data, defaultValue)

/-! ## The settings save endpoint (src/server.js, lines 392-399)

`app.post('/api/settings')` reads the current settings object, computes
`{ ...currentSettings, ...req.body }` and writes the result.  A JSON
object is modelled extensionally as a partial map from field names to
values; the object spread keeps a field of the current settings exactly
when the body does not define it. -/

/-- A JSON object viewed as a partial map from field names to values. -/
def JsObj : Type := String → Option JValue

/-- The object spread `{ ...s, ...b }`: fields of `b` win, fields of `s`
absent from `b` survive. -/
def spreadMerge (s b : JsObj) : JsObj :=
  fun k => match b k with
  | some v => some v
  | none => s k

/-- The settings save endpoint: the settings persisted after
`POST /api/settings` with prior settings `current` and request body
`body`. -/
def postSettings (current body : JsObj) : JsObj := spreadMerge current body

/-! ## The date provider (src/services/uaeDatesService.ts)

JavaScript `Date` values are modelled by a calendar date: year, 0-based
month as in JS, and 1-based day of month.  `dateToDays` / `daysToDate` are
the standard civil-calendar conversions to a day count (Gregorian,
proleptic), through which `setDate(getDate() + shift)` becomes `addDays`.
`Math.round(x)` in JS is `⌊x + 1/2⌋`; with `x = yearDiff * -10.875 =
yearDiff * -87/8` this is `⌊(-87 * yearDiff + 4) / 8⌋`, written with
`Int.fdiv`. -/

/-- A calendar date as JS `new Date(year, month, day)` holds it: `month`
is 0-based, `day` 1-based. -/
structure JSDate where
  year : Int
  month : Int
  day : Int
deriving DecidableEq

/-- Days since the civil epoch 1970-01-01 of a calendar date. -/
def dateToDays (d : JSDate) : Int :=
  let m1 := d.month + 1
  let y := if m1 ≤ 2 then d.year - 1 else d.year
  let era := Int.fdiv y 400
  let yoe := y - era * 400
  let mp := if m1 > 2 then m1 - 3 else m1 + 9
  let doy := Int.fdiv (153 * mp + 2) 5 + d.day - 1
  let doe := yoe * 365 + Int.fdiv yoe 4 - Int.fdiv yoe 100 + doy
  era * 146097 + doe - 719468

/-- The calendar date of a day count since 1970-01-01. -/
def daysToDate (z0 : Int) : JSDate :=
  let z := z0 + 719468
  let era := Int.fdiv z 146097
  let doe := z - era * 146097
  let yoe := Int.fdiv (doe - Int.fdiv doe 1460 + Int.fdiv doe 36524 - Int.fdiv doe 146096) 365
  let y := yoe + era * 400
  let doy := doe - (365 * yoe + Int.fdiv yoe 4 - Int.fdiv yoe 100)
  let mp := Int.fdiv (5 * doy + 2) 153
  let d := doy - Int.fdiv (153 * mp + 2) 5 + 1
  let m1 := if mp < 10 then mp + 3 else mp - 9
  { year := if m1 ≤ 2 then y + 1 else y, month := m1 - 1, day := d }

/-- The date `n` days after `d`: `setDate(getDate() + n)` with JS
normalization across month and year boundaries. -/
def addDays (d : JSDate) (n : Int) : JSDate := daysToDate (dateToDays d + n)

/-- Model of `getApproximateIslamicDate` (uaeDatesService.ts, lines 5-15;
duplicated in src/server.js, lines 61-68): take the base date, replace its
year with the target year (`setFullYear`), and shift by
`Math.round(yearDiff * -10.875)` days. -/
def getApproximateIslamicDate (baseYear : Int) (baseDate : JSDate) (targetYear : Int) :
    JSDate :=
  let yearDiff := targetYear - baseYear
  let dayShift := Int.fdiv (yearDiff * -87 + 4) 8
  addDays { baseDate with year := targetYear } dayShift

/-- One named date of the provider before the `source` stamp. -/
structure SpecialDatePre where
  date : JSDate
  name : String
  category : String
deriving DecidableEq

/-- One named date of the provider, `source` included. -/
structure SpecialDate where
  date : JSDate
  name : String
  category : String
  source : String
deriving DecidableEq

/-- The hardcoded table of exact Chinese lunar holidays
(uaeDatesService.ts, lines 70-91): dates and names for the years 2024 to
2027, the empty list for every other year. -/
def chineseLunarHolidays (year : Int) : List (JSDate × String) :=
  if year = 2024 then
    [(⟨2024, 1, 10⟩, "Chinese New Year"),
     (⟨2024, 5, 10⟩, "Dragon Boat Festival (China)"),
     (⟨2024, 8, 17⟩, "Mid-Autumn Festival (China)")]
  else if year = 2025 then
    [(⟨2025, 0, 29⟩, "Chinese New Year"),
     (⟨2025, 4, 31⟩, "Dragon Boat Festival (China)"),
     (⟨2025, 9, 6⟩, "Mid-Autumn Festival (China)")]
  else if year = 2026 then
    [(⟨2026, 1, 17⟩, "Chinese New Year"),
     (⟨2026, 5, 19⟩, "Dragon Boat Festival (China)"),
     (⟨2026, 8, 25⟩, "Mid-Autumn Festival (China)")]
  else if year = 2027 then
    [(⟨2027, 1, 6⟩, "Chinese New Year"),
     (⟨2027, 5, 9⟩, "Dragon Boat Festival (China)"),
     (⟨2027, 8, 15⟩, "Mid-Autumn Festival (China)")]
  else []

/-- The fixed entries of `getSpecialDates` for a year: the literal list of
uaeDatesService.ts lines 32-61 followed by the three fixed Chinese
holidays pushed at lines 65-67.  The five Religious entries are the
Islamic approximations. -/
def specialDatesBase (year : Int) : List SpecialDatePre :=
  [⟨⟨year, 0, 1⟩, "New Year's Day", "Global Event"⟩,
   ⟨⟨year, 1, 14⟩, "Valentine's Day", "Commercial"⟩,
   ⟨⟨year, 2, 8⟩, "International Women's Day", "Global Event"⟩,
   ⟨⟨year, 2, 21⟩, "Mother's Day (UAE)", "Commercial"⟩,
   ⟨getApproximateIslamicDate 2024 ⟨2024, 2, 11⟩ year, "Ramadan Begins (approx.)", "Religious"⟩,
   ⟨getApproximateIslamicDate 2024 ⟨2024, 3, 10⟩ year, "Eid Al Fitr (approx.)", "Religious"⟩,
   ⟨getApproximateIslamicDate 2024 ⟨2024, 5, 16⟩ year, "Eid Al Adha (approx.)", "Religious"⟩,
   ⟨getApproximateIslamicDate 2024 ⟨2024, 6, 7⟩ year, "Islamic New Year (approx.)", "Religious"⟩,
   ⟨getApproximateIslamicDate 2024 ⟨2024, 8, 15⟩ year, "Prophet's Birthday (approx.)", "Religious"⟩,
   ⟨⟨year, 4, 1⟩, "Summer Heat Starts", "Season"⟩,
   ⟨⟨year, 5, 21⟩, "Father's Day", "Commercial"⟩,
   ⟨⟨year, 6, 15⟩, "Amazon Prime Day (approx.)", "E-commerce Sale"⟩,
   ⟨⟨year, 7, 28⟩, "Emirati Women's Day", "National Holiday"⟩,
   ⟨⟨year, 7, 20⟩, "Back to School Season", "Commercial"⟩,
   ⟨⟨year, 9, 31⟩, "Diwali (Commercial)", "Commercial"⟩,
   ⟨⟨year, 10, 1⟩, "Start of Cool Weather", "Season"⟩,
   ⟨⟨year, 10, 11⟩, "Singles' Day Sale (11.11)", "E-commerce Sale"⟩,
   ⟨⟨year, 10, 29⟩, "White/Yellow Friday Sale", "E-commerce Sale"⟩,
   ⟨⟨year, 11, 1⟩, "Commemoration Day", "National Holiday"⟩,
   ⟨⟨year, 11, 1⟩, "Winter Starts", "Season"⟩,
   ⟨⟨year, 11, 2⟩, "UAE National Day", "National Holiday"⟩,
   ⟨⟨year, 11, 3⟩, "UAE National Day Holiday", "National Holiday"⟩,
   ⟨⟨year, 11, 12⟩, "12.12 Sale", "E-commerce Sale"⟩,
   ⟨⟨year, 11, 15⟩, "Dubai Shopping Festival Starts", "Commercial"⟩,
   ⟨⟨year, 3, 4⟩, "Qingming Festival (China)", "Cultural"⟩,
   ⟨⟨year, 4, 1⟩, "Labour Day (China)", "Cultural"⟩,
   ⟨⟨year, 9, 1⟩, "National Day (China)", "Cultural"⟩]

/-- Model of `getSpecialDates` (uaeDatesService.ts, lines 31-99): the
fixed entries, then the table's Chinese lunar holidays for the year pushed
with category `Cultural`, every entry stamped `source: 'built-in'`. -/
def getSpecialDates (year : Int) : List SpecialDate :=
  (specialDatesBase year ++
    (chineseLunarHolidays year).map
      (fun h => (⟨h.1, h.2, "Cultural"⟩ : SpecialDatePre))).map
    (fun d => (⟨d.date, d.name, d.category, "built-in"⟩ : SpecialDate))

/-! ## Settings and the discovery job (src/server.js, lines 204-279)

The settings fields the two background jobs destructure.  JS falsiness of
the string fields is emptiness; `aiProvider` is one of the three provider
names the code compares against (any other string falls through to the
Gemini branch, which the enum's `gemini` also covers);
`lastAutoDiscoverRun || 0` is the identity on an integer model, since `0`
is the only falsy integer and `|| 0` maps it to itself. -/

inductive AiProvider where
  | gemini : AiProvider
  | openai : AiProvider
  | openrouter : AiProvider
deriving DecidableEq

/-- The settings record as the background jobs read it. -/
structure Settings where
  webhookUrl : String
  isAutoDiscoverEnabled : Bool
  autoDiscoverFrequency : Int
  lastAutoDiscoverRun : Int
  aiProvider : AiProvider
  openaiApiKey : String
  openrouterApiKey : String
  isAutoNotifyEnabled : Bool
  notifyDaysBefore : Int
  isDailyBriefingEnabled : Bool
deriving DecidableEq

/-- JS `x || d` on numbers: `0` is the only falsy integer. -/
def jsOrInt (x d : Int) : Int := if x = 0 then d else x

/-- Milliseconds in a day, the factor in `frequencyInMs`. -/
def dayMs : Int := 24 * 60 * 60 * 1000

/-- A candidate event as the AI provider returns it and as the
discovered-events store persists it: the three fields the filter at
line 260 inspects, each possibly absent.  A present empty string is falsy
in JS exactly like an absent field. -/
structure Candidate where
  date : Option String
  name : Option String
  category : Option String
deriving DecidableEq

/-- JS truthiness of a possibly-absent string field. -/
def truthy : Option String → Bool
  | none => false
  | some s => !s.isEmpty

/-- A template literal renders an absent field as `undefined`. -/
def strOrUndefined : Option String → String
  | none => "undefined"
  | some s => s

/-- The dedup key `` `${e.name}_${e.date}` `` of lines 258 and 260. -/
def eventKey (e : Candidate) : String :=
  strOrUndefined e.name ++ "_" ++ strOrUndefined e.date

/-- The credential check of line 215: whether the selected provider lacks
what it needs (`aiConfigured` is whether the Gemini client was built from
the API_KEY environment variable). -/
def providerKeyMissing (s : Settings) (aiConfigured : Bool) : Bool :=
  match s.aiProvider with
  | .gemini => !aiConfigured
  | .openai => s.openaiApiKey.isEmpty
  | .openrouter => s.openrouterApiKey.isEmpty

/-- How a run of the discovery job ended. -/
inductive DiscoveryOutcome where
  | disabled : DiscoveryOutcome
  | tooSoon : DiscoveryOutcome
  | skippedNoKey : DiscoveryOutcome
  | ran : DiscoveryOutcome
  | failed : DiscoveryOutcome
deriving DecidableEq

/-- The state a discovery run leaves behind, and how it ended. -/
structure DiscoveryResult where
  settings : Settings
  store : List Candidate
  outcome : DiscoveryOutcome
deriving DecidableEq

/-- Model of `runDiscoveryTask` (src/server.js, lines 204-279).
`providerResult` is what the selected AI call produced: an exception
(`Except.error`), a non-array JSON value (`Except.ok none`), or an array of
candidates (`Except.ok (some l)`); a Gemini response whose JSON does not
parse arrives as `Except.ok (some [])`, because that branch catches the
parse error itself and substitutes `[]` (lines 242-248).  The try block
starts after the three early exits, so an exception reaches neither the
events write nor the settings write. -/
def runDiscoveryTask (s : Settings) (aiConfigured : Bool) (now : Int)
    (providerResult : Except String (Option (List Candidate)))
    (discoveredEvents : List Candidate) : DiscoveryResult :=
  if !s.isAutoDiscoverEnabled then ⟨s, discoveredEvents, .disabled⟩
  else
    let frequencyInMs := jsOrInt s.autoDiscoverFrequency 2 * dayMs
    if now - s.lastAutoDiscoverRun < frequencyInMs then ⟨s, discoveredEvents, .tooSoon⟩
    else if providerKeyMissing s aiConfigured then ⟨s, discoveredEvents, .skippedNoKey⟩
    else
      match providerResult with
      | .error _ => ⟨s, discoveredEvents, .failed⟩
      | .ok newEventsRaw =>
        let existingEventKeys := discoveredEvents.map eventKey
        let uniqueNewEvents :=
          match newEventsRaw with
          | some l =>
            l.filter (fun e =>
              truthy e.date && truthy e.name && truthy e.category &&
                !(decide (eventKey e ∈ existingEventKeys)))
          | none => []
        let store' :=
          if uniqueNewEvents.length > 0 then discoveredEvents ++ uniqueNewEvents
          else discoveredEvents
        ⟨{ s with lastAutoDiscoverRun := now }, store', .ran⟩

/-- Model of `app.post('/api/discovered-events')` (src/server.js, lines
425-428): the request body is written wholesale over the store. -/
def postDiscoveredEvents (_store body : List Candidate) : List Candidate := body

/-- Key-uniqueness of a discovered-events store: no two persisted events
share the `name_date` key. -/
def NoDupKeys (l : List Candidate) : Prop := (l.map eventKey).Nodup

instance : DecidablePred NoDupKeys := fun l =>
  inferInstanceAs (Decidable (l.map eventKey).Nodup)

/-! ## The notification job (src/server.js, lines 281-359)

An event as the reminder pass sees it after the merge at lines 297-301:
its optional `id`, its `name`, and its calendar day once
`setHours(0, 0, 0, 0)` has normalized the parsed date - modelled as the
day count `dateToDays` assigns, so two dates agree on the day exactly when
the model integers are equal.  The ISO day string of the id fallback is
modelled by rendering that integer. -/

structure NEvent where
  id : Option String
  name : String
  day : Int
deriving DecidableEq

/-- The stable id of line 343: `event.id` when truthy, else
`` `${event.name}_${isoDay}` ``. -/
def eventId (e : NEvent) : String :=
  match e.id with
  | some i => if i.isEmpty then e.name ++ "_" ++ toString e.day else i
  | none => e.name ++ "_" ++ toString e.day

/-- Insertion into a JS `Set` modelled as its insertion-ordered element
list. -/
def addToSet (acc : List String) (x : String) : List String :=
  if x ∈ acc then acc else acc ++ [x]

/-- `new Set(l)` as its insertion-ordered element list. -/
def mkSet (l : List String) : List String := l.foldl addToSet []

/-- The reminder loop of lines 342-356: for each event in order, derive
the id; if it is not in the set, send (record the id in the output) and
add it to the set. -/
def remindLoop : List NEvent → List String → List String → List String × List String
  | [], sentSet, sends => (sentSet, sends)
  | e :: rest, sentSet, sends =>
    let i := eventId e
    if i ∈ sentSet then remindLoop rest sentSet sends
    else remindLoop rest (sentSet ++ [i]) (sends ++ [i])

/-- What one notification tick leaves behind: the persisted
sent-notifications list, the reminder ids sent this tick in order, and
whether a daily briefing went out. -/
structure NotifResult where
  sentStore : List String
  reminderSends : List String
  briefingSent : Bool
deriving DecidableEq

/-- Model of `checkAndSendNotifications` (src/server.js, lines 281-359).
`allEvents` is the merged user, discovered and built-in list; `today` the
normalized current day.  The webhook cannot throw (`sendDiscordWebhook`
catches internally), so the pass always reaches the final
`writeJSON(SENT_NOTIFICATIONS_FILE, Array.from(sentSet))` - which runs,
and deduplicates the stored list, even when nothing was sent. -/
def checkAndSendNotifications (s : Settings) (today : Int) (allEvents : List NEvent)
    (sentNotifications : List String) : NotifResult :=
  if s.webhookUrl.isEmpty || (!s.isAutoNotifyEnabled && !s.isDailyBriefingEnabled) then
    ⟨sentNotifications, [], false⟩
  else
    let todaysEvents := allEvents.filter (fun e => e.day = today)
    let briefingSent := s.isDailyBriefingEnabled && !todaysEvents.isEmpty
    if s.isAutoNotifyEnabled && s.notifyDaysBefore > 0 then
      let sentSet := mkSet sentNotifications
      let notificationDate := today + s.notifyDaysBefore
      let eventsToNotify := allEvents.filter (fun e => e.day = notificationDate)
      let r := remindLoop eventsToNotify sentSet []
      ⟨r.1, r.2, briefingSent⟩
    else ⟨sentNotifications, [], briefingSent⟩

/-- The inputs one scheduled tick of the notification job sees: the
settings and stores are re-read from disk at every tick, so each tick
carries its own. -/
structure NotifTick where
  settings : Settings
  today : Int
  events : List NEvent
deriving DecidableEq

/-- A sequence of notification ticks threading the persisted
sent-notifications store: the final store and all reminder sends in
order. -/
def runNotifTicks : List NotifTick → List String → List String × List String
  | [], store => (store, [])
  | t :: ts, store =>
    let r := checkAndSendNotifications t.settings t.today t.events store
    let rest := runNotifTicks ts r.sentStore
    (rest.1, r.reminderSends ++ rest.2)

/-- A tick at which the reminder pass fires for id `i`: the reminders
feature is on with a positive lead time, the webhook is set, and some
event of the tick lies on `today + notifyDaysBefore` with derived id
`i`. -/
def RemindersQualify (t : NotifTick) (i : String) : Prop :=
  t.settings.webhookUrl.isEmpty = false ∧
  t.settings.isAutoNotifyEnabled = true ∧
  0 < t.settings.notifyDaysBefore ∧
  ∃ e ∈ t.events, e.day = t.today + t.settings.notifyDaysBefore ∧ eventId e = i

/-! ## Helper lemmas about the discovery job -/

theorem runDiscoveryTask_disabled {s : Settings} (ai : Bool) (now : Int)
    (pr : Except String (Option (List Candidate))) (store : List Candidate)
    (h : s.isAutoDiscoverEnabled = false) :
    runDiscoveryTask s ai now pr store = ⟨s, store, .disabled⟩ := by
  simp [runDiscoveryTask, h]

theorem runDiscoveryTask_tooSoon {s : Settings} (ai : Bool) {now : Int}
    (pr : Except String (Option (List Candidate))) (store : List Candidate)
    (he : s.isAutoDiscoverEnabled = true)
    (h : now - s.lastAutoDiscoverRun < jsOrInt s.autoDiscoverFrequency 2 * dayMs) :
    runDiscoveryTask s ai now pr store = ⟨s, store, .tooSoon⟩ := by
  simp [runDiscoveryTask, he, h]

theorem runDiscoveryTask_proceeds {s : Settings} {ai : Bool} {now : Int}
    {pr : Except String (Option (List Candidate))} {store : List Candidate}
    (h : (runDiscoveryTask s ai now pr store).outcome = .ran ∨
      (runDiscoveryTask s ai now pr store).outcome = .failed) :
    s.isAutoDiscoverEnabled = true ∧
      jsOrInt s.autoDiscoverFrequency 2 * dayMs ≤ now - s.lastAutoDiscoverRun := by
  by_cases he : s.isAutoDiscoverEnabled
  · by_cases hg : now - s.lastAutoDiscoverRun < jsOrInt s.autoDiscoverFrequency 2 * dayMs
    · rw [runDiscoveryTask_tooSoon ai pr store he hg] at h
      rcases h with h | h <;> simp at h
    · exact ⟨he, le_of_not_lt hg⟩
  · rw [runDiscoveryTask_disabled ai now pr store (by simpa using he)] at h
    rcases h with h | h <;> simp at h

/-! ## Claim theorems: the discovery job's gate and timestamp -/

/-- C3: with `frequencyDays = N` and a `lastRunTimestamp`, running the
discovery job while `now - lastRunTimestamp < N` days is a no-op that
exits early without error and without modifying any persisted state
(settings and store are returned unchanged, through the disabled or the
too-soon exit); and the job proceeds to the provider call (outcome `ran`
or `failed`) only once `now - lastRunTimestamp >= N` days. -/
theorem c3_interval_gate (s : Settings) (ai : Bool) (now : Int)
    (pr : Except String (Option (List Candidate))) (store : List Candidate)
    (N : Int) (hN : s.autoDiscoverFrequency = N) :
    (now - s.lastAutoDiscoverRun < N * dayMs →
      (runDiscoveryTask s ai now pr store).settings = s ∧
      (runDiscoveryTask s ai now pr store).store = store ∧
      ((runDiscoveryTask s ai now pr store).outcome = .disabled ∨
        (runDiscoveryTask s ai now pr store).outcome = .tooSoon)) ∧
    ((runDiscoveryTask s ai now pr store).outcome = .ran ∨
        (runDiscoveryTask s ai now pr store).outcome = .failed →
      N * dayMs ≤ now - s.lastAutoDiscoverRun) := by
  constructor
  · intro hlt
    by_cases he : s.isAutoDiscoverEnabled
    · have hg : now - s.lastAutoDiscoverRun < jsOrInt s.autoDiscoverFrequency 2 * dayMs := by
        rw [hN] at *
        unfold jsOrInt
        split
        · rename_i h0
          subst h0
          have : (0 : Int) < dayMs := by norm_num [dayMs]
          omega
        · exact hlt
      rw [runDiscoveryTask_tooSoon ai pr store he hg]
      exact ⟨rfl, rfl, Or.inr rfl⟩
    · rw [runDiscoveryTask_disabled ai now pr store (by simpa using he)]
      exact ⟨rfl, rfl, Or.inl rfl⟩
  · intro h
    have hp := runDiscoveryTask_proceeds h
    rw [hN] at *
    rcases hp with ⟨-, hge⟩
    unfold jsOrInt at hge
    revert hge
    split
    · rename_i h0
      subst h0
      intro hge
      have : (0 : Int) < dayMs := by norm_num [dayMs]
      omega
    · exact fun hge => hge

/-- Witness for C3 at a concrete state: frequency 3 days, last run at 0,
now one day later; the gate hypothesis holds and the run is a no-op. -/
theorem c3_interval_gate_witness :
    ((86400000 : Int) - 0 < 3 * dayMs) ∧
      (runDiscoveryTask
          ⟨"", true, 3, 0, .gemini, "", "", false, 7, false⟩ true 86400000
          (.ok (some [])) []).settings =
        ⟨"", true, 3, 0, .gemini, "", "", false, 7, false⟩ := by
  refine ⟨by norm_num [dayMs], ?_⟩
  exact (c3_interval_gate ⟨"", true, 3, 0, .gemini, "", "", false, 7, false⟩ true 86400000
    (.ok (some [])) [] 3 rfl).1 (by norm_num [dayMs]) |>.1

/-- C4: past the interval gate (discovery enabled, interval elapsed,
credentials present), a successful run persists `lastAutoDiscoverRun =
now` whatever the provider returned - an array with or without new
events, or a non-array; a run whose provider call throws is caught with
outcome `failed`, and neither the settings nor the discovered-events
store are modified. -/
theorem c4_timestamp_on_success_only (s : Settings) (ai : Bool) (now : Int)
    (store : List Candidate) (raw : Option (List Candidate)) (err : String)
    (he : s.isAutoDiscoverEnabled = true)
    (hgate : jsOrInt s.autoDiscoverFrequency 2 * dayMs ≤ now - s.lastAutoDiscoverRun)
    (hkey : providerKeyMissing s ai = false) :
    ((runDiscoveryTask s ai now (.ok raw) store).settings =
        { s with lastAutoDiscoverRun := now } ∧
      (runDiscoveryTask s ai now (.ok raw) store).outcome = .ran) ∧
    ((runDiscoveryTask s ai now (.error err) store).settings = s ∧
      (runDiscoveryTask s ai now (.error err) store).store = store ∧
      (runDiscoveryTask s ai now (.error err) store).outcome = .failed) := by
  have hng : ¬ (now - s.lastAutoDiscoverRun < jsOrInt s.autoDiscoverFrequency 2 * dayMs) :=
    not_lt.mpr hgate
  refine ⟨?_, ?_⟩
  · simp only [runDiscoveryTask, he, Bool.not_true, Bool.false_eq_true, if_false,
      if_neg hng, hkey]
    trivial
  · simp [runDiscoveryTask, he, hng, hkey]

/-- Witness for C4 at a concrete state: enabled, frequency 2 days, last
run 0, now 3 days later, Gemini configured; success updates the
timestamp, an error leaves the settings unchanged. -/
theorem c4_timestamp_on_success_only_witness :
    (runDiscoveryTask ⟨"", true, 2, 0, .gemini, "", "", false, 7, false⟩ true 259200000
        (.ok (some [])) []).settings =
      ⟨"", true, 2, 259200000, .gemini, "", "", false, 7, false⟩ ∧
    (runDiscoveryTask ⟨"", true, 2, 0, .gemini, "", "", false, 7, false⟩ true 259200000
        (.error "network") []).settings = ⟨"", true, 2, 0, .gemini, "", "", false, 7, false⟩ := by
  have h := c4_timestamp_on_success_only
    ⟨"", true, 2, 0, .gemini, "", "", false, 7, false⟩ true 259200000 [] (some []) "network"
    rfl (by norm_num [jsOrInt, dayMs]) rfl
  exact ⟨h.1.1, h.2.1⟩

/-! ## Claim theorems: what the discovery job persists -/

/-- C10: from an array of provider candidates, every event the run adds
to the store comes from that array and has truthy `date`, `name` and
`category`; a candidate with any of the three fields missing or empty is
never added (its multiplicity in the store is unchanged); and a non-array
provider result adds nothing. -/
theorem c10_candidate_filter (s : Settings) (ai : Bool) (now : Int)
    (store : List Candidate) (l : List Candidate) :
    (∀ c : Candidate, c ∈ (runDiscoveryTask s ai now (.ok (some l)) store).store →
      c ∈ store ∨ (c ∈ l ∧ truthy c.date = true ∧ truthy c.name = true ∧
        truthy c.category = true)) ∧
    (∀ c : Candidate, (truthy c.date && truthy c.name && truthy c.category) = false →
      (runDiscoveryTask s ai now (.ok (some l)) store).store.count c = store.count c) ∧
    (runDiscoveryTask s ai now (.ok none) store).store = store := by
  have hstore : ∀ raw, (runDiscoveryTask s ai now (.ok raw) store).store = store ∨
      (runDiscoveryTask s ai now (.ok raw) store).store =
        store ++ (match raw with
          | some l' => l'.filter (fun e =>
              truthy e.date && truthy e.name && truthy e.category &&
                !(decide (eventKey e ∈ store.map eventKey)))
          | none => []) := by
    intro raw
    by_cases h1 : s.isAutoDiscoverEnabled
    · by_cases h2 : now - s.lastAutoDiscoverRun < jsOrInt s.autoDiscoverFrequency 2 * dayMs
      · exact Or.inl (by simp [runDiscoveryTask, h1, h2])
      · by_cases h3 : providerKeyMissing s ai
        · exact Or.inl (by simp [runDiscoveryTask, h1, h2, h3])
        · simp only [runDiscoveryTask, h1, Bool.not_true, Bool.false_eq_true, if_false,
            if_neg h2, h3, if_false]
          split
          · exact Or.inr rfl
          · exact Or.inl rfl
    · exact Or.inl (by simp [runDiscoveryTask, h1])
  refine ⟨?_, ?_, ?_⟩
  · intro c hc
    rcases hstore (some l) with h | h
    · rw [h] at hc
      exact Or.inl hc
    · rw [h] at hc
      rcases List.mem_append.mp hc with h1 | h1
      · exact Or.inl h1
      · have := List.mem_filter.mp h1
        refine Or.inr ⟨this.1, ?_, ?_, ?_⟩ <;>
          · have hb := this.2
            simp only [Bool.and_eq_true] at hb
            tauto
  · intro c hbad
    rcases hstore (some l) with h | h
    · rw [h]
    · rw [h, List.count_append]
      have hnot : c ∉ l.filter (fun e =>
          truthy e.date && truthy e.name && truthy e.category &&
            !(decide (eventKey e ∈ store.map eventKey))) := by
        intro hmem
        have hpred := (List.mem_filter.mp hmem).2
        simp only [Bool.and_eq_true] at hpred
        rw [hpred.1.1.1, hpred.1.1.2, hpred.1.2] at hbad
        simp at hbad
      rw [List.count_eq_zero.mpr hnot]
      simp
  · rcases hstore none with h | h
    · exact h
    · simpa using h

/-- Witness for C10 at a concrete run: a candidate with an empty name is
not persisted. -/
theorem c10_candidate_filter_witness :
    ((truthy (some "2025-03-01") && truthy (some "") && truthy (some "Cultural")) = false) ∧
    (runDiscoveryTask ⟨"", true, 2, 0, .gemini, "", "", false, 7, false⟩ true 259200000
        (.ok (some [⟨some "2025-03-01", some "", some "Cultural"⟩])) []).store.count
        ⟨some "2025-03-01", some "", some "Cultural"⟩ =
      ([] : List Candidate).count ⟨some "2025-03-01", some "", some "Cultural"⟩ := by
  refine ⟨by decide, ?_⟩
  exact (c10_candidate_filter ⟨"", true, 2, 0, .gemini, "", "", false, 7, false⟩ true 259200000
    [] [⟨some "2025-03-01", some "", some "Cultural"⟩]).2.1
    ⟨some "2025-03-01", some "", some "Cultural"⟩ (by decide)

/-- C1 fails as stated: the discovered-events save endpoint
(`POST /api/discovered-events`) writes the request body wholesale, so a
body holding two events with the same name and date leaves the store with
a duplicated `(name, date)` key. -/
theorem c1_counterexample :
    NoDupKeys ([] : List Candidate) ∧
    postDiscoveredEvents []
        [⟨some "2025-11-11", some "Singles Day", some "E-commerce Sale"⟩,
         ⟨some "2025-11-11", some "Singles Day", some "E-commerce Sale"⟩] =
      [⟨some "2025-11-11", some "Singles Day", some "E-commerce Sale"⟩,
       ⟨some "2025-11-11", some "Singles Day", some "E-commerce Sale"⟩] ∧
    ¬ NoDupKeys
        [⟨some "2025-11-11", some "Singles Day", some "E-commerce Sale"⟩,
         ⟨some "2025-11-11", some "Singles Day", some "E-commerce Sale"⟩] :=
  ⟨by decide, rfl, by decide⟩

/-- C1 amended: the discovery job's append filters out every candidate
whose `name_date` key already occurs among the persisted events, so it
preserves key-uniqueness of the store whenever the provider's batch
itself carries pairwise-distinct keys; the save endpoint, which overwrites
the store with the request body unchecked, is excluded. -/
theorem c1_discovery_preserves_dedup (s : Settings) (ai : Bool) (now : Int)
    (pr : Except String (Option (List Candidate))) (store : List Candidate)
    (h : NoDupKeys store)
    (hraw : ∀ l, pr = Except.ok (some l) → (l.map eventKey).Nodup) :
    NoDupKeys (runDiscoveryTask s ai now pr store).store := by
  by_cases h1 : s.isAutoDiscoverEnabled
  · by_cases h2 : now - s.lastAutoDiscoverRun < jsOrInt s.autoDiscoverFrequency 2 * dayMs
    · rw [runDiscoveryTask_tooSoon ai pr store h1 h2]
      exact h
    · by_cases h3 : providerKeyMissing s ai
      · have hs : (runDiscoveryTask s ai now pr store).store = store := by
          rcases pr with err | raw <;> simp [runDiscoveryTask, h1, h2, h3]
        rw [hs]
        exact h
      · rcases pr with err | raw
        · have hs : (runDiscoveryTask s ai now (.error err) store).store = store := by
            simp [runDiscoveryTask, h1, h2, h3]
          rw [hs]
          exact h
        · rcases raw with _ | l
          · have hs : (runDiscoveryTask s ai now (.ok none) store).store = store := by
              simp [runDiscoveryTask, h1, h2, h3]
            rw [hs]
            exact h
          · have hl := hraw l rfl
            have hs : (runDiscoveryTask s ai now (.ok (some l)) store).store = store ∨
                (runDiscoveryTask s ai now (.ok (some l)) store).store =
                  store ++ l.filter (fun e =>
                    truthy e.date && truthy e.name && truthy e.category &&
                      !(decide (eventKey e ∈ store.map eventKey))) := by
              simp only [runDiscoveryTask, h1, Bool.not_true, Bool.false_eq_true, if_false,
                if_neg h2, h3, if_false]
              split
              · exact Or.inr rfl
              · exact Or.inl rfl
            rcases hs with hs | hs
            · rw [hs]
              exact h
            · rw [hs]
              unfold NoDupKeys
              rw [List.map_append, List.nodup_append]
              refine ⟨h, hl.sublist (List.Sublist.map eventKey (List.filter_sublist l)), ?_⟩
              intro k hk1 hk2
              rcases List.mem_map.mp hk2 with ⟨e, hmem, hke⟩
              have hp := (List.mem_filter.mp hmem).2
              simp only [Bool.and_eq_true] at hp
              have hfresh := hp.2
              rw [hke] at hfresh
              exact absurd hk1 (by simpa using hfresh)
  · rw [runDiscoveryTask_disabled ai now pr store (by simpa using h1)]
    exact h

/-- Witness for C1 amended at a concrete run: a fresh candidate joins an
existing store and key-uniqueness is preserved. -/
theorem c1_discovery_preserves_dedup_witness :
    NoDupKeys [(⟨some "2025-01-01", some "A", some "Cultural"⟩ : Candidate)] ∧
    NoDupKeys (runDiscoveryTask ⟨"", true, 2, 0, .gemini, "", "", false, 7, false⟩ true
      259200000 (.ok (some [⟨some "2025-02-02", some "B", some "Cultural"⟩]))
      [⟨some "2025-01-01", some "A", some "Cultural"⟩]).store := by
  refine ⟨by decide, ?_⟩
  exact c1_discovery_preserves_dedup ⟨"", true, 2, 0, .gemini, "", "", false, 7, false⟩ true
    259200000 (.ok (some [⟨some "2025-02-02", some "B", some "Cultural"⟩]))
    [⟨some "2025-01-01", some "A", some "Cultural"⟩] (by decide)
    (by intro l hl; injection hl with hl2; injection hl2 with hl3; rw [← hl3]; decide)

/-! ## Claim theorems: the settings save endpoint -/

/-- C5 fails as stated: `POST /api/settings` computes
`{ ...currentSettings, ...req.body }`, so a field of the prior settings
that the body does not define survives the save - the persisted settings
are not equal to the body. -/
theorem c5_counterexample :
    postSettings
        (fun k => if k = "openaiApiKey" then some (.jstr "sk-old".data) else none)
        (fun _ => none) ≠
      (fun _ => (none : Option JValue)) := by
  intro h
  have h2 := congrFun h "openaiApiKey"
  simp [postSettings, spreadMerge] at h2

/-- C5 amended: the settings persisted by the save endpoint are the
field-wise merge of the prior settings and the body, the body taking
precedence: every field the body defines is stored with the body's value,
and every field the body leaves undefined keeps the prior value. -/
theorem c5_settings_merge (current body : JsObj) :
    (∀ k v, body k = some v → postSettings current body k = some v) ∧
    (∀ k, body k = none → postSettings current body k = current k) := by
  constructor
  · intro k v hk
    simp [postSettings, spreadMerge, hk]
  · intro k hk
    simp [postSettings, spreadMerge, hk]

/-- Witness for C5 amended at concrete objects: the body's field wins,
the prior settings' other field survives. -/
theorem c5_settings_merge_witness :
    ((fun k => if k = "webhookUrl" then some (JValue.jstr "hook".data) else none) "webhookUrl" =
      some (JValue.jstr "hook".data)) ∧
    postSettings (fun k => if k = "openaiApiKey" then some (.jstr "sk-old".data) else none)
        (fun k => if k = "webhookUrl" then some (.jstr "hook".data) else none) "webhookUrl" =
      some (JValue.jstr "hook".data) := by
  refine ⟨rfl, ?_⟩
  exact (c5_settings_merge
    (fun k => if k = "openaiApiKey" then some (.jstr "sk-old".data) else none)
    (fun k => if k = "webhookUrl" then some (.jstr "hook".data) else none)).1
    "webhookUrl" (JValue.jstr "hook".data) rfl

/-! ## Claim theorems: the date provider -/

theorem filter_religious_of_cultural (l : List (JSDate × String)) :
    ((l.map (fun h => (⟨h.1, h.2, "Cultural"⟩ : SpecialDatePre))).map
        (fun d => (⟨d.date, d.name, d.category, "built-in"⟩ : SpecialDate))).filter
      (fun e => e.category = "Religious") = [] := by
  rw [List.filter_eq_nil_iff]
  intro a ha
  rcases List.mem_map.mp ha with ⟨b, hb, rfl⟩
  rcases List.mem_map.mp hb with ⟨c, hc2, rfl⟩
  show ¬ decide (("Cultural" : String) = "Religious") = true
  decide

/-- C8 fails as stated: 2025 is a year of the hardcoded table of exact
lunar dates, yet the returned list still carries the Islamic
approximation - the unique entry named `Ramadan Begins (approx.)` holds
the formula date, 28 February 2025, not a table date; the table's entries
are separate Chinese holidays such as Chinese New Year, added alongside
with category `Cultural`, overriding nothing. -/
theorem c8_counterexample :
    chineseLunarHolidays 2025 ≠ [] ∧
    (getSpecialDates 2025).filter (fun e => e.name = "Ramadan Begins (approx.)") =
      [⟨getApproximateIslamicDate 2024 ⟨2024, 2, 11⟩ 2025, "Ramadan Begins (approx.)",
        "Religious", "built-in"⟩] ∧
    getApproximateIslamicDate 2024 ⟨2024, 2, 11⟩ 2025 = ⟨2025, 1, 28⟩ ∧
    (⟨⟨2025, 0, 29⟩, "Chinese New Year", "Cultural", "built-in"⟩ : SpecialDate) ∈
      getSpecialDates 2025 := by
  refine ⟨by decide, by decide, by decide, by decide⟩

/-- C8 amended: for every year, the provider's lunar (Islamic) holidays
are computed by replacing the base-year date's year with the target year
and shifting by `round((year - baseYear) * -10.875)` days - the filter of
the returned list on category `Religious` is exactly the five such
approximations, for table years too; and the hardcoded table of exact
lunar dates contributes the Chinese lunar holidays of its known years as
additional `Cultural` entries rather than overriding the
approximations. -/
theorem c8_islamic_approx_and_lunar_table (year : Int) :
    ((getSpecialDates year).filter (fun e => e.category = "Religious")).map
        (fun e => (e.name, e.date)) =
      [("Ramadan Begins (approx.)", getApproximateIslamicDate 2024 ⟨2024, 2, 11⟩ year),
       ("Eid Al Fitr (approx.)", getApproximateIslamicDate 2024 ⟨2024, 3, 10⟩ year),
       ("Eid Al Adha (approx.)", getApproximateIslamicDate 2024 ⟨2024, 5, 16⟩ year),
       ("Islamic New Year (approx.)", getApproximateIslamicDate 2024 ⟨2024, 6, 7⟩ year),
       ("Prophet's Birthday (approx.)", getApproximateIslamicDate 2024 ⟨2024, 8, 15⟩ year)] ∧
    ∀ h ∈ chineseLunarHolidays year,
      (⟨h.1, h.2, "Cultural", "built-in"⟩ : SpecialDate) ∈ getSpecialDates year := by
  constructor
  · unfold getSpecialDates
    rw [List.map_append, List.filter_append, filter_religious_of_cultural, List.append_nil]
    rfl
  · intro h hmem
    unfold getSpecialDates
    rw [List.map_append]
    refine List.mem_append_right _ ?_
    rw [List.map_map]
    exact List.mem_map_of_mem _ hmem

/-- Witness for C8 amended: the 2025 table entry for Chinese New Year is
in the returned list for 2025. -/
theorem c8_islamic_approx_and_lunar_table_witness :
    ((((⟨2025, 0, 29⟩ : JSDate), "Chinese New Year") : JSDate × String) ∈
      chineseLunarHolidays 2025) ∧
    (⟨⟨2025, 0, 29⟩, "Chinese New Year", "Cultural", "built-in"⟩ : SpecialDate) ∈
      getSpecialDates 2025 :=
  ⟨by decide, (c8_islamic_approx_and_lunar_table 2025).2
    (((⟨2025, 0, 29⟩ : JSDate), "Chinese New Year") : JSDate × String) (by decide)⟩

/-- C9: `getSpecialDates 2024` and `getSpecialDates 2025` are non-empty,
every entry carries the requested year, and two calls with the same year
return equal lists (the function is pure and deterministic). -/
theorem c9_special_dates_year_stamped :
    getSpecialDates 2024 ≠ [] ∧ getSpecialDates 2025 ≠ [] ∧
    (getSpecialDates 2024).all (fun e => e.date.year = 2024) = true ∧
    (getSpecialDates 2025).all (fun e => e.date.year = 2025) = true ∧
    getSpecialDates 2024 = getSpecialDates 2024 ∧
    getSpecialDates 2025 = getSpecialDates 2025 :=
  ⟨by decide, by decide, by decide, by decide, rfl, rfl⟩

/-! ## Helper lemmas about the notification job -/

instance (t : NotifTick) (i : String) : Decidable (RemindersQualify t i) := by
  unfold RemindersQualify
  infer_instance

theorem mem_foldl_addToSet (l : List String) :
    ∀ (acc : List String) (i : String), i ∈ l.foldl addToSet acc ↔ i ∈ acc ∨ i ∈ l := by
  induction l with
  | nil =>
    intro acc i
    simp
  | cons x xs ih =>
    intro acc i
    rw [List.foldl_cons, ih]
    unfold addToSet
    by_cases hx : x ∈ acc
    · rw [if_pos hx]
      simp only [List.mem_cons]
      constructor
      · tauto
      · rintro (h | h)
        · exact Or.inl h
        · rcases h with rfl | h
          · exact Or.inl hx
          · exact Or.inr h
    · rw [if_neg hx]
      simp only [List.mem_append, List.mem_cons, List.mem_singleton]
      tauto

theorem mem_mkSet (l : List String) (i : String) : i ∈ mkSet l ↔ i ∈ l := by
  unfold mkSet
  rw [mem_foldl_addToSet]
  simp

theorem remindLoop_subset (es : List NEvent) :
    ∀ (sentSet sends : List String) (i : String),
      i ∈ sentSet → i ∈ (remindLoop es sentSet sends).1 := by
  induction es with
  | nil =>
    intro sentSet sends i hi
    exact hi
  | cons e rest ih =>
    intro sentSet sends i hi
    simp only [remindLoop]
    by_cases hm : eventId e ∈ sentSet
    · rw [if_pos hm]
      exact ih sentSet sends i hi
    · rw [if_neg hm]
      exact ih (sentSet ++ [eventId e]) (sends ++ [eventId e]) i (List.mem_append_left _ hi)

theorem remindLoop_count_mem (es : List NEvent) :
    ∀ (sentSet sends : List String) (i : String), i ∈ sentSet →
      (remindLoop es sentSet sends).2.count i = sends.count i := by
  induction es with
  | nil =>
    intro sentSet sends i hi
    rfl
  | cons e rest ih =>
    intro sentSet sends i hi
    simp only [remindLoop]
    by_cases hm : eventId e ∈ sentSet
    · rw [if_pos hm]
      exact ih sentSet sends i hi
    · rw [if_neg hm]
      have hne : eventId e ≠ i := fun h => hm (h ▸ hi)
      rw [ih (sentSet ++ [eventId e]) (sends ++ [eventId e]) i (List.mem_append_left _ hi),
        List.count_append]
      simp [List.count_singleton, hne, Ne.symm hne]

theorem remindLoop_count_new (es : List NEvent) :
    ∀ (sentSet sends : List String) (i : String), i ∉ sentSet →
      ((remindLoop es sentSet sends).2.count i =
        sends.count i + (if ∃ e ∈ es, eventId e = i then 1 else 0)) ∧
      (i ∈ (remindLoop es sentSet sends).1 ↔ ∃ e ∈ es, eventId e = i) := by
  induction es with
  | nil =>
    intro sentSet sends i hi
    simp [remindLoop, hi]
  | cons e rest ih =>
    intro sentSet sends i hi
    have hsplit : (∃ x ∈ e :: rest, eventId x = i) ↔
        (eventId e = i ∨ ∃ x ∈ rest, eventId x = i) := by
      constructor
      · rintro ⟨x, hx, hxi⟩
        rcases List.mem_cons.mp hx with rfl | hx2
        · exact Or.inl hxi
        · exact Or.inr ⟨x, hx2, hxi⟩
      · rintro (h | ⟨x, hx, hxi⟩)
        · exact ⟨e, List.mem_cons_self e rest, h⟩
        · exact ⟨x, List.mem_cons_of_mem _ hx, hxi⟩
    simp only [remindLoop]
    by_cases hm : eventId e ∈ sentSet
    · rw [if_pos hm]
      have hne : eventId e ≠ i := fun h => hi (h ▸ hm)
      have hih := ih sentSet sends i hi
      refine ⟨?_, ?_⟩
      · rw [hih.1]
        have : (∃ x ∈ e :: rest, eventId x = i) ↔ (∃ x ∈ rest, eventId x = i) := by
          rw [hsplit]
          tauto
        simp only [this]
      · rw [hih.2, hsplit]
        tauto
    · rw [if_neg hm]
      by_cases hei : eventId e = i
      · have hmem2 : i ∈ sentSet ++ [eventId e] := by
          rw [hei] at *
          exact List.mem_append_right _ (List.mem_singleton_self i)
        refine ⟨?_, ?_⟩
        · rw [remindLoop_count_mem rest (sentSet ++ [eventId e]) (sends ++ [eventId e]) i hmem2,
            List.count_append, if_pos (hsplit.mpr (Or.inl hei))]
          simp [hei]
        · constructor
          · intro _
            exact hsplit.mpr (Or.inl hei)
          · intro _
            exact remindLoop_subset rest (sentSet ++ [eventId e]) (sends ++ [eventId e]) i hmem2
      · have hi2 : i ∉ sentSet ++ [eventId e] := by
          intro h
          rcases List.mem_append.mp h with h | h
          · exact hi h
          · exact hei (List.mem_singleton.mp h).symm
        have hih := ih (sentSet ++ [eventId e]) (sends ++ [eventId e]) i hi2
        have hcond : (∃ x ∈ e :: rest, eventId x = i) ↔ (∃ x ∈ rest, eventId x = i) := by
          rw [hsplit]
          tauto
        refine ⟨?_, ?_⟩
        · rw [hih.1, List.count_append]
          simp only [hcond]
          have hc0 : List.count i [eventId e] = 0 :=
            List.count_eq_zero.mpr (by
              simp only [List.mem_singleton]
              exact fun h => hei h.symm)
          omega
        · rw [hih.2, hcond]

theorem tick_mem_preserved (s : Settings) (today : Int) (evs : List NEvent)
    {store : List String} {i : String} (hi : i ∈ store) :
    i ∈ (checkAndSendNotifications s today evs store).sentStore := by
  unfold checkAndSendNotifications
  split
  · exact hi
  · split
    · exact remindLoop_subset _ _ _ _ ((mem_mkSet store i).mpr hi)
    · exact hi

theorem tick_count_mem (s : Settings) (today : Int) (evs : List NEvent)
    {store : List String} {i : String} (hi : i ∈ store) :
    (checkAndSendNotifications s today evs store).reminderSends.count i = 0 := by
  unfold checkAndSendNotifications
  split
  · rfl
  · split
    · rw [remindLoop_count_mem _ _ _ _ ((mem_mkSet store i).mpr hi)]
      rfl
    · rfl

theorem tick_new (s : Settings) (today : Int) (evs : List NEvent)
    {store : List String} {i : String} (hi : i ∉ store) :
    ((checkAndSendNotifications s today evs store).reminderSends.count i =
      if RemindersQualify ⟨s, today, evs⟩ i then 1 else 0) ∧
    (i ∈ (checkAndSendNotifications s today evs store).sentStore ↔
      RemindersQualify ⟨s, today, evs⟩ i) := by
  unfold checkAndSendNotifications
  split
  · rename_i hgate
    have hq : ¬ RemindersQualify ⟨s, today, evs⟩ i := by
      rintro ⟨hw, ha, -, -⟩
      simp only [Bool.or_eq_true, Bool.and_eq_true] at hgate
      rcases hgate with h | ⟨h, -⟩
      · rw [hw] at h
        exact absurd h (by simp)
      · rw [ha] at h
        exact absurd h (by simp)
    rw [if_neg hq]
    exact ⟨rfl, iff_of_false hi hq⟩
  · rename_i hgate
    split
    · rename_i hblock
      simp only [Bool.and_eq_true, decide_eq_true_eq] at hblock
      have hws : s.webhookUrl.isEmpty = false := by
        simp only [Bool.or_eq_true, Bool.and_eq_true] at hgate
        cases hws : s.webhookUrl.isEmpty
        · rfl
        · exact absurd (Or.inl hws) hgate
      have hset : i ∉ mkSet store := fun h => hi ((mem_mkSet store i).mp h)
      have hloop := remindLoop_count_new
        (evs.filter (fun e => e.day = today + s.notifyDaysBefore)) (mkSet store) [] i hset
      have hcond : (∃ e ∈ evs.filter (fun e => e.day = today + s.notifyDaysBefore),
          eventId e = i) ↔ RemindersQualify ⟨s, today, evs⟩ i := by
        constructor
        · rintro ⟨e, he, hei⟩
          have hf := List.mem_filter.mp he
          exact ⟨hws, hblock.1, hblock.2, e, hf.1, by simpa using hf.2, hei⟩
        · rintro ⟨-, -, -, e, he, hd, hei⟩
          exact ⟨e, List.mem_filter.mpr ⟨he, by simpa using hd⟩, hei⟩
      refine ⟨?_, ?_⟩
      · rw [hloop.1]
        simp only [hcond, List.count_nil, Nat.zero_add]
      · rw [hloop.2, hcond]
    · rename_i hblock
      have hq : ¬ RemindersQualify ⟨s, today, evs⟩ i := by
        rintro ⟨-, ha, hd, -⟩
        refine hblock ?_
        simp only [Bool.and_eq_true, decide_eq_true_eq]
        exact ⟨ha, hd⟩
      rw [if_neg hq]
      exact ⟨rfl, iff_of_false hi hq⟩

theorem runTicks_mem_preserved (ts : List NotifTick) :
    ∀ (store : List String) (i : String), i ∈ store → i ∈ (runNotifTicks ts store).1 := by
  induction ts with
  | nil =>
    intro store i hi
    exact hi
  | cons t ts ih =>
    intro store i hi
    exact ih _ i (tick_mem_preserved t.settings t.today t.events hi)

theorem runTicks_count (ts : List NotifTick) :
    ∀ (store : List String) (i : String),
      (i ∈ store → (runNotifTicks ts store).2.count i = 0 ∧ i ∈ (runNotifTicks ts store).1) ∧
      (i ∉ store → (runNotifTicks ts store).2.count i =
        if i ∈ (runNotifTicks ts store).1 then 1 else 0) := by
  induction ts with
  | nil =>
    intro store i
    refine ⟨fun hi => ⟨rfl, hi⟩, fun hi => ?_⟩
    simp [runNotifTicks, hi]
  | cons t ts ih =>
    intro store i
    constructor
    · intro hi
      have h1 := tick_count_mem t.settings t.today t.events hi
      have h2 := tick_mem_preserved t.settings t.today t.events hi
      have hih := (ih _ i).1 h2
      simp only [runNotifTicks, List.count_append]
      exact ⟨by rw [h1, hih.1], hih.2⟩
    · intro hi
      have hnew := tick_new t.settings t.today t.events hi
      simp only [runNotifTicks, List.count_append]
      by_cases hq : RemindersQualify ⟨t.settings, t.today, t.events⟩ i
      · have hmem := hnew.2.mpr hq
        have hih := (ih _ i).1 hmem
        rw [hnew.1, if_pos hq, hih.1, if_pos hih.2]
      · have hmem : i ∉ (checkAndSendNotifications t.settings t.today t.events store).sentStore :=
          fun h => hq (hnew.2.mp h)
        have hih := (ih _ i).2 hmem
        rw [hnew.1, if_neg hq, hih]
        omega

theorem runTicks_qualify_mem (ts : List NotifTick) :
    ∀ (store : List String) (i : String), (∃ t ∈ ts, RemindersQualify t i) →
      i ∈ (runNotifTicks ts store).1 := by
  induction ts with
  | nil =>
    rintro store i ⟨t, ht, -⟩
    exact absurd ht (List.not_mem_nil t)
  | cons t ts ih =>
    rintro store i ⟨u, hu, hq⟩
    rcases List.mem_cons.mp hu with rfl | hu2
    · by_cases hi : i ∈ store
      · exact runTicks_mem_preserved ts _ i (tick_mem_preserved u.settings u.today u.events hi)
      · have := (tick_new u.settings u.today u.events hi).2.mpr hq
        exact runTicks_mem_preserved ts _ i this
    · exact ih _ i ⟨u, hu2, hq⟩

/-! ## Claim theorem: reminders fire exactly once -/

/-- C2: across any sequence of notification ticks threading the persisted
sent-notification set, a reminder id `i` not initially in the set is sent
at most once in total; and if at some tick the reminder pass is active
(webhook set, auto-notify on, positive lead time) and an event of that
tick lies on `today + notifyDaysBefore` with derived id `i` - `event.id`
when truthy, else `name_date` - then `i` is sent exactly once in total:
the first matching tick sends it and records the id, every later tick
skips it. -/
theorem c2_reminder_exactly_once (ticks : List NotifTick) (s0 : List String) (i : String)
    (h0 : i ∉ s0) :
    (runNotifTicks ticks s0).2.count i ≤ 1 ∧
    ((∃ t ∈ ticks, RemindersQualify t i) → (runNotifTicks ticks s0).2.count i = 1) := by
  have hinv := (runTicks_count ticks s0 i).2 h0
  constructor
  · rw [hinv]
    split <;> omega
  · intro hq
    rw [hinv, if_pos (runTicks_qualify_mem ticks s0 i hq)]

/-- Witness for C2 at a concrete run: two identical ticks, an event three
days ahead with id `evt1`; the reminder goes out exactly once. -/
theorem c2_reminder_exactly_once_witness :
    (("evt1" : String) ∉ ([] : List String)) ∧
    (∃ t ∈ [(⟨⟨"hook", false, 2, 0, .gemini, "", "", true, 3, false⟩, 7,
        [⟨some "evt1", "Eid", 10⟩]⟩ : NotifTick),
        ⟨⟨"hook", false, 2, 0, .gemini, "", "", true, 3, false⟩, 7,
        [⟨some "evt1", "Eid", 10⟩]⟩], RemindersQualify t "evt1") ∧
    (runNotifTicks [(⟨⟨"hook", false, 2, 0, .gemini, "", "", true, 3, false⟩, 7,
        [⟨some "evt1", "Eid", 10⟩]⟩ : NotifTick),
        ⟨⟨"hook", false, 2, 0, .gemini, "", "", true, 3, false⟩, 7,
        [⟨some "evt1", "Eid", 10⟩]⟩] []).2.count "evt1" = 1 := by
  have hq : RemindersQualify (⟨⟨"hook", false, 2, 0, .gemini, "", "", true, 3, false⟩, 7,
      [⟨some "evt1", "Eid", 10⟩]⟩ : NotifTick) "evt1" := by
    refine ⟨by decide, rfl, by norm_num, ⟨some "evt1", "Eid", 10⟩, ?_, by norm_num, by decide⟩
    simp
  have hex : ∃ t ∈ [(⟨⟨"hook", false, 2, 0, .gemini, "", "", true, 3, false⟩, 7,
      [⟨some "evt1", "Eid", 10⟩]⟩ : NotifTick),
      ⟨⟨"hook", false, 2, 0, .gemini, "", "", true, 3, false⟩, 7,
      [⟨some "evt1", "Eid", 10⟩]⟩], RemindersQualify t "evt1" :=
    ⟨_, List.mem_cons_self _ _, hq⟩
  exact ⟨by simp, hex,
    (c2_reminder_exactly_once _ [] "evt1" (by simp)).2 hex⟩

/-! ## Helper lemmas: decimal digits and numbers -/

theorem digitQ_digitChar {d : Nat} (h : d < 10) : digitQ (Nat.digitChar d) = true := by
  interval_cases d <;> rfl

theorem digVal_digitChar {d : Nat} (h : d < 10) : digVal (Nat.digitChar d) = d := by
  interval_cases d <;> rfl

theorem natChars_all_digit (n : Nat) : ∀ c ∈ natChars n, digitQ c = true := by
  induction n using Nat.strong_induction_on with
  | _ n ih =>
    rw [natChars]
    split
    · rename_i hlt
      intro c hc
      rw [List.mem_singleton] at hc
      subst hc
      exact digitQ_digitChar hlt
    · rename_i hge
      intro c hc
      rcases List.mem_append.mp hc with h | h
      · exact ih (n / 10) (Nat.div_lt_self (by omega) (by omega)) c h
      · rw [List.mem_singleton] at h
        subst h
        exact digitQ_digitChar (Nat.mod_lt _ (by omega))

theorem natChars_ne_nil (n : Nat) : natChars n ≠ [] := by
  rw [natChars]
  split
  · simp
  · simp

theorem natChars_head (n : Nat) : ∃ c tl, natChars n = c :: tl ∧ digitQ c = true := by
  cases h : natChars n with
  | nil => exact absurd h (natChars_ne_nil n)
  | cons c tl =>
    exact ⟨c, tl, rfl, natChars_all_digit n c (by rw [h]; exact List.mem_cons_self c tl)⟩

theorem natFold_append_singleton (ds : List Char) (c : Char) :
    natFold (ds ++ [c]) = (natFold ds) * 10 + digVal c := by
  simp only [natFold, List.foldl_append, List.foldl_cons, List.foldl_nil]

theorem natFold_natChars (n : Nat) : natFold (natChars n) = n := by
  induction n using Nat.strong_induction_on with
  | _ n ih =>
    rw [natChars]
    split
    · rename_i hlt
      simp only [natFold, List.foldl_cons, List.foldl_nil, Nat.zero_mul, Nat.zero_add]
      exact digVal_digitChar hlt
    · rename_i hge
      rw [natFold_append_singleton, ih (n / 10) (Nat.div_lt_self (by omega) (by omega)),
        digVal_digitChar (Nat.mod_lt _ (by omega))]
      omega

theorem takeWhile_dropWhile_append {p : Char → Bool} {l1 l2 : List Char}
    (h1 : ∀ c ∈ l1, p c = true) (h2 : ∀ c, l2.head? = some c → p c = false) :
    (l1 ++ l2).takeWhile p = l1 ∧ (l1 ++ l2).dropWhile p = l2 := by
  induction l1 with
  | nil =>
    cases l2 with
    | nil => simp
    | cons c r => simp [List.takeWhile_cons, List.dropWhile_cons, h2 c rfl]
  | cons a l1 ih =>
    have ha : p a = true := h1 a (List.mem_cons_self a l1)
    have := ih (fun c hc => h1 c (List.mem_cons_of_mem _ hc))
    simp [List.takeWhile_cons, List.dropWhile_cons, ha, this.1, this.2]

theorem parseNum_natChars (n : Nat) (rest : List Char)
    (hrest : ∀ c, rest.head? = some c → digitQ c = false) :
    parseNum (natChars n ++ rest) = some (n, rest) := by
  have hT := takeWhile_dropWhile_append (natChars_all_digit n) hrest
  have hne : (natChars n).isEmpty = false := by
    cases h : natChars n with
    | nil => exact absurd h (natChars_ne_nil n)
    | cons c tl => rfl
  simp only [parseNum, hT.1, hT.2, hne, Bool.false_eq_true, if_false,
    natFold_natChars]

/-! ## Helper lemmas: string bodies -/

theorem parseStrBody_escaped (s : List Char) (rest : List Char) :
    parseStrBody (s.flatMap escChar ++ (quoteC :: rest)) = some (s, rest) := by
  induction s with
  | nil =>
    simp only [List.flatMap_nil, List.nil_append]
    rw [parseStrBody.eq_def]
    simp
  | cons c s ih =>
    by_cases hc : c = quoteC ∨ c = backslashC
    · have he : escChar c = [backslashC, c] := by simp [escChar, hc]
      have hne : ¬ (backslashC = quoteC) := by decide
      simp only [List.flatMap_cons, he, List.cons_append, List.nil_append,
        List.append_assoc]
      rw [parseStrBody.eq_def]
      simp [hne, ih]
    · have he : escChar c = [c] := by simp [escChar, hc]
      push_neg at hc
      simp only [List.flatMap_cons, he, List.cons_append, List.nil_append,
        List.append_assoc]
      rw [parseStrBody.eq_def]
      simp [hc.1, hc.2, ih]

/-! ## Helper lemmas: parsing a serialized primitive -/

theorem parseVal_succ_cons (fuel : Nat) (c : Char) (r : List Char) :
    parseVal (fuel + 1) (c :: r) =
      if c = 'n' then
        match expectChars ['u', 'l', 'l'] r with
        | some r2 => some (JValue.null, r2)
        | none => none
      else if c = 't' then
        match expectChars ['r', 'u', 'e'] r with
        | some r2 => some (JValue.jbool true, r2)
        | none => none
      else if c = 'f' then
        match expectChars ['a', 'l', 's', 'e'] r with
        | some r2 => some (JValue.jbool false, r2)
        | none => none
      else if c = quoteC then
        match parseStrBody r with
        | some (s, r2) => some (JValue.jstr s, r2)
        | none => none
      else if c = '-' then
        match parseNum r with
        | some (n, r2) => some (JValue.jnum (-(n : Int)), r2)
        | none => none
      else if digitQ c then
        match parseNum (c :: r) with
        | some (n, r2) => some (JValue.jnum (n : Int), r2)
        | none => none
      else if c = '[' then
        match r with
        | [] => none
        | c2 :: r2 =>
          if c2 = ']' then some (JValue.jarr [], r2)
          else
            match parseItemsLoop fuel (c2 :: r2) with
            | some (vs, r3) => some (JValue.jarr vs, r3)
            | none => none
      else if c = lbraceC then
        match r with
        | [] => none
        | c2 :: r2 =>
          if c2 = rbraceC then some (JValue.jobj [], r2)
          else
            match parseMembersLoop fuel (c2 :: r2) with
            | some (kvs, r3) => some (JValue.jobj kvs, r3)
            | none => none
      else none := rfl

theorem parseVal_prim (v : JValue) (hp : isPrim v = true) (fuel : Nat) (rest : List Char)
    (hrest : ∀ c, rest.head? = some c → digitQ c = false) :
    parseVal (fuel + 1) (serialize v ++ rest) = some (v, rest) := by
  cases v with
  | null =>
    rw [show serialize .null = ['n', 'u', 'l', 'l'] from rfl]
    simp only [List.cons_append, List.nil_append]
    rw [parseVal_succ_cons]
    simp [expectChars]
  | jbool b =>
    cases b with
    | true =>
      rw [show serialize (.jbool true) = ['t', 'r', 'u', 'e'] from rfl]
      simp only [List.cons_append, List.nil_append]
      rw [parseVal_succ_cons]
      simp [expectChars]
    | false =>
      rw [show serialize (.jbool false) = ['f', 'a', 'l', 's', 'e'] from rfl]
      simp only [List.cons_append, List.nil_append]
      rw [parseVal_succ_cons]
      simp [expectChars]
  | jnum n =>
    by_cases hneg : n < 0
    · have hser : serialize (.jnum n) = '-' :: natChars n.natAbs := by
        simp [serialize, serInt, hneg]
      have h1 : ¬ (('-' : Char) = 'n') := by decide
      have h2 : ¬ (('-' : Char) = 't') := by decide
      have h3 : ¬ (('-' : Char) = 'f') := by decide
      have h4 : ¬ (('-' : Char) = quoteC) := by decide
      have hpn : parseNum (natChars n.natAbs ++ rest) = some (n.natAbs, rest) :=
        parseNum_natChars _ _ hrest
      rw [hser, List.cons_append, parseVal_succ_cons]
      rw [if_neg h1, if_neg h2, if_neg h3, if_neg h4, if_pos rfl, hpn]
      simp only [Option.some.injEq, Prod.mk.injEq, JValue.jnum.injEq, and_true, true_and]
      omega
    · have hser : serialize (.jnum n) = natChars n.toNat := by
        simp [serialize, serInt, hneg]
      obtain ⟨c, tl, hct, hdig⟩ := natChars_head n.toNat
      have h1 : ¬ (c = 'n') := fun h => absurd (h ▸ hdig) (by decide)
      have h2 : ¬ (c = 't') := fun h => absurd (h ▸ hdig) (by decide)
      have h3 : ¬ (c = 'f') := fun h => absurd (h ▸ hdig) (by decide)
      have h4 : ¬ (c = quoteC) := fun h => absurd (h ▸ hdig) (by decide)
      have h5 : ¬ (c = '-') := fun h => absurd (h ▸ hdig) (by decide)
      have hpn : parseNum (c :: (tl ++ rest)) = some (n.toNat, rest) := by
        rw [← List.cons_append, ← hct]
        exact parseNum_natChars _ _ hrest
      rw [hser, hct, List.cons_append, parseVal_succ_cons]
      rw [if_neg h1, if_neg h2, if_neg h3, if_neg h4, if_neg h5, if_pos hdig, hpn]
      simp only [Option.some.injEq, Prod.mk.injEq, JValue.jnum.injEq, and_true, true_and]
      omega
  | jstr s =>
    have hser : serialize (.jstr s) = quoteC :: (s.flatMap escChar ++ [quoteC]) := rfl
    have h1 : ¬ (quoteC = 'n') := by decide
    have h2 : ¬ (quoteC = 't') := by decide
    have h3 : ¬ (quoteC = 'f') := by decide
    rw [hser, List.cons_append, parseVal_succ_cons]
    rw [if_neg h1, if_neg h2, if_neg h3, if_pos rfl]
    rw [List.append_assoc, List.singleton_append, parseStrBody_escaped s rest]
  | jarr xs => simp [isPrim] at hp
  | jobj kvs => simp [isPrim] at hp

/-! ## Helper lemmas: parsing a serialized flat object -/

theorem parseMembersLoop_succ_cons (fuel : Nat) (c : Char) (r : List Char) :
    parseMembersLoop (fuel + 1) (c :: r) =
      if c = quoteC then
        match parseStrBody r with
        | some (k, r1) =>
          match r1 with
          | [] => none
          | c3 :: r2 =>
            if c3 = ':' then
              match parseVal fuel r2 with
              | some (v, r3) =>
                match r3 with
                | [] => none
                | c4 :: r4 =>
                  if c4 = ',' then
                    match parseMembersLoop fuel r4 with
                    | some (kvs, r5) => some ((k, v) :: kvs, r5)
                    | none => none
                  else if c4 = rbraceC then some ([(k, v)], r4)
                  else none
              | none => none
            else none
        | none => none
      else none := rfl

theorem serMembersRest_head_not_digit (kvs : List (List Char × JValue)) (rest : List Char) :
    ∀ c, (serMembersRest kvs ++ rbraceC :: rest).head? = some c → digitQ c = false := by
  cases kvs with
  | nil =>
    intro c hc
    rw [show serMembersRest [] = [] from rfl, List.nil_append] at hc
    simp only [List.head?_cons, Option.some.injEq] at hc
    subst hc
    decide
  | cons kv kvs =>
    intro c hc
    rw [show serMembersRest (kv :: kvs) = ',' :: (serMember kv ++ serMembersRest kvs) from rfl,
      List.cons_append] at hc
    simp only [List.head?_cons, Option.some.injEq] at hc
    subst hc
    decide

theorem parseMembersLoop_step (k : List Char) (v : JValue) (hv : isPrim v = true) (F : Nat)
    (tail : List Char) (htail : ∀ c, tail.head? = some c → digitQ c = false) :
    parseMembersLoop (F + 2) (serMember (k, v) ++ tail) =
      match tail with
      | [] => none
      | c4 :: r4 =>
        if c4 = ',' then
          match parseMembersLoop (F + 1) r4 with
          | some (kvs, r5) => some ((k, v) :: kvs, r5)
          | none => none
        else if c4 = rbraceC then some ([(k, v)], r4)
        else none := by
  simp only [serMember, serStr, List.cons_append, List.nil_append, List.append_assoc,
    List.singleton_append]
  rw [show (F + 2) = (F + 1) + 1 from rfl, parseMembersLoop_succ_cons, if_pos rfl]
  rw [parseStrBody_escaped k (':' :: (serialize v ++ tail))]
  dsimp only
  rw [if_pos rfl]
  rw [parseVal_prim v hv F tail htail]
  cases tail with
  | nil => rfl
  | cons c4 r4 => rfl

theorem parseMembersLoop_ser (kvs : List (List Char × JValue)) :
    ∀ (k : List Char) (v : JValue) (F2 : Nat) (rest : List Char),
      isPrim v = true → (∀ kv ∈ kvs, isPrim kv.2 = true) → kvs.length ≤ F2 →
      parseMembersLoop (F2 + 2)
          (serMember (k, v) ++ (serMembersRest kvs ++ rbraceC :: rest)) =
        some ((k, v) :: kvs, rest) := by
  induction kvs with
  | nil =>
    intro k v F2 rest hv hflat hF
    rw [show serMembersRest [] = [] from rfl, List.nil_append]
    rw [parseMembersLoop_step k v hv F2 (rbraceC :: rest)
      (by intro c hc; simp only [List.head?_cons, Option.some.injEq] at hc; subst hc; decide)]
    dsimp only
    rw [if_neg (by decide), if_pos rfl]
  | cons kv2 kvs ih =>
    rcases kv2 with ⟨k2, v2⟩
    intro k v F2 rest hv hflat hF
    have hW : serMembersRest ((k2, v2) :: kvs) ++ rbraceC :: rest =
        ',' :: (serMember (k2, v2) ++ (serMembersRest kvs ++ rbraceC :: rest)) := by
      rw [show serMembersRest ((k2, v2) :: kvs) =
        ',' :: (serMember (k2, v2) ++ serMembersRest kvs) from rfl]
      simp [List.cons_append, List.append_assoc]
    rw [hW, parseMembersLoop_step k v hv F2 _
      (by intro c hc; simp only [List.head?_cons, Option.some.injEq] at hc; subst hc; decide)]
    dsimp only
    rw [if_pos rfl]
    obtain ⟨F3, rfl⟩ : ∃ F3, F2 = F3 + 1 := by
      cases F2 with
      | zero => simp at hF
      | succ m => exact ⟨m, rfl⟩
    have hF2 : kvs.length ≤ F3 := by
      simp only [List.length_cons] at hF
      omega
    rw [ih k2 v2 F3 rest (hflat (k2, v2) (List.mem_cons_self _ _))
      (fun kv hkv => hflat kv (List.mem_cons_of_mem _ hkv)) hF2]

theorem serMembersRest_length (kvs : List (List Char × JValue)) :
    kvs.length ≤ (serMembersRest kvs).length := by
  induction kvs with
  | nil => simp [serMembersRest]
  | cons kv kvs ih =>
    rw [show serMembersRest (kv :: kvs) = ',' :: (serMember kv ++ serMembersRest kvs) from rfl]
    simp only [List.length_cons, List.length_append]
    omega

theorem serialize_jobj_length (kvs : List (List Char × JValue)) :
    kvs.length + 2 ≤ (serialize (.jobj kvs)).length := by
  cases kvs with
  | nil => simp [serialize]
  | cons kv kvs =>
    rw [show serialize (.jobj (kv :: kvs)) =
      lbraceC :: (serMember kv ++ serMembersRest kvs ++ [rbraceC]) from rfl]
    have h1 := serMembersRest_length kvs
    have h2 : 1 ≤ (serMember kv).length := by
      rcases kv with ⟨k, v⟩
      rw [show serMember (k, v) =
        quoteC :: ((k.flatMap escChar ++ [quoteC]) ++ ':' :: serialize v) from rfl]
      simp
    simp only [List.length_cons, List.length_append, List.length_singleton]
    omega

theorem parseVal_jobj (kvs : List (List Char × JValue))
    (hflat : ∀ kv ∈ kvs, isPrim kv.2 = true) (F : Nat) (hF : kvs.length + 3 ≤ F)
    (rest : List Char) :
    parseVal F (serialize (.jobj kvs) ++ rest) = some (.jobj kvs, rest) := by
  obtain ⟨F3, rfl⟩ : ∃ F3, F = F3 + 3 := ⟨F - 3, by omega⟩
  cases kvs with
  | nil =>
    rw [show serialize (.jobj []) = [lbraceC, rbraceC] from rfl]
    simp only [List.cons_append, List.nil_append]
    rw [show (F3 + 3) = (F3 + 2) + 1 from rfl, parseVal_succ_cons]
    rw [if_neg (by decide), if_neg (by decide), if_neg (by decide), if_neg (by decide),
      if_neg (by decide), if_neg (by decide), if_neg (by decide), if_pos rfl]
    dsimp only
    rw [if_pos rfl]
  | cons kv kvs =>
    rcases kv with ⟨k, v⟩
    have hser : serialize (.jobj ((k, v) :: kvs)) ++ rest =
        lbraceC :: (serMember (k, v) ++ (serMembersRest kvs ++ rbraceC :: rest)) := by
      rw [show serialize (.jobj ((k, v) :: kvs)) =
        lbraceC :: (serMember (k, v) ++ serMembersRest kvs ++ [rbraceC]) from rfl]
      simp [List.cons_append, List.append_assoc]
    obtain ⟨t, ht⟩ : ∃ t, serMember (k, v) ++ (serMembersRest kvs ++ rbraceC :: rest) =
        quoteC :: t := by
      rw [show serMember (k, v) =
        quoteC :: ((k.flatMap escChar ++ [quoteC]) ++ ':' :: serialize v) from rfl]
      refine ⟨((k.flatMap escChar ++ [quoteC]) ++ ':' :: serialize v) ++
        (serMembersRest kvs ++ rbraceC :: rest), ?_⟩
      rw [List.cons_append]
    rw [hser]
    rw [show (F3 + 3) = (F3 + 2) + 1 from rfl, parseVal_succ_cons]
    rw [if_neg (by decide), if_neg (by decide), if_neg (by decide), if_neg (by decide),
      if_neg (by decide), if_neg (by decide), if_neg (by decide), if_pos rfl]
    rw [ht]
    dsimp only
    rw [if_neg (by decide)]
    rw [← ht]
    have hF2 : kvs.length ≤ F3 := by
      simp only [List.length_cons] at hF
      omega
    rw [parseMembersLoop_ser kvs k v F3 rest (hflat (k, v) (List.mem_cons_self _ _))
      (fun kv hkv => hflat kv (List.mem_cons_of_mem _ hkv)) hF2]

theorem parseJSON_stringify_flat (kvs : List (List Char × JValue))
    (hflat : ∀ kv ∈ kvs, isPrim kv.2 = true) :
    parseJSON (stringify (.jobj kvs)) = some (.jobj kvs) := by
  unfold parseJSON stringify
  have hp := parseVal_jobj kvs hflat ((serialize (.jobj kvs)).length + 1)
    (by have := serialize_jobj_length kvs; omega) []
  rw [List.append_nil] at hp
  rw [hp]

theorem mem_dropWhile_of_not (p : Char → Bool) (l : List Char) (c : Char)
    (hc : c ∈ l) (hpc : p c = false) : c ∈ l.dropWhile p := by
  induction l with
  | nil => simp at hc
  | cons a l ih =>
    rw [List.dropWhile_cons]
    by_cases hpa : p a = true
    · rw [if_pos hpa]
      rcases List.mem_cons.mp hc with rfl | hc2
      · rw [hpc] at hpa
        simp at hpa
      · exact ih hc2
    · rw [if_neg hpa]
      exact hc

theorem trimChars_ne_nil {cs : List Char} {c : Char} (hc : c ∈ cs) (hw : wsQ c = false) :
    trimChars cs ≠ [] := by
  unfold trimChars
  intro h
  have h1 : c ∈ cs.dropWhile wsQ := mem_dropWhile_of_not _ _ _ hc hw
  have h2 : c ∈ (cs.dropWhile wsQ).reverse := List.mem_reverse.mpr h1
  have h3 : c ∈ (cs.dropWhile wsQ).reverse.dropWhile wsQ := mem_dropWhile_of_not _ _ _ h2 hw
  have h4 : c ∈ ((cs.dropWhile wsQ).reverse.dropWhile wsQ).reverse := List.mem_reverse.mpr h3
  rw [h] at h4
  exact absurd h4 (List.not_mem_nil c)

theorem lbrace_mem_serialize_jobj (kvs : List (List Char × JValue)) :
    lbraceC ∈ serialize (.jobj kvs) := by
  cases kvs with
  | nil =>
    rw [show serialize (.jobj []) = [lbraceC, rbraceC] from rfl]
    exact List.mem_cons_self _ _
  | cons kv kvs =>
    rw [show serialize (.jobj (kv :: kvs)) =
      lbraceC :: (serMember kv ++ serMembersRest kvs ++ [rbraceC]) from rfl]
    exact List.mem_cons_self _ _

/-! ## Claim theorems: the persistence store -/

/-- C6: for every default value, reading a missing file creates the
backing file holding the rendering of the default and returns the
default; and for every stored content that does not parse, reading
returns the default, leaves the file unchanged, and - being a total
function - never throws. -/
theorem c6_read_missing_or_corrupt (s : List Char) (d : JValue) :
    readJSON none d = (some (stringify d), d) ∧
    (parseJSON s = none → readJSON (some s) d = (some s, d)) := by
  constructor
  · rfl
  · intro hp
    unfold readJSON
    dsimp only
    by_cases ht : trimChars s = []
    · rw [if_pos ht]
    · rw [if_neg ht, hp]

/-- Witness for C6 at concrete corrupt content: the file `oops` does not
parse and reads back as the default. -/
theorem c6_read_missing_or_corrupt_witness :
    parseJSON "oops".data = none ∧
    readJSON (some "oops".data) (JValue.jobj []) = (some "oops".data, JValue.jobj []) := by
  refine ⟨rfl, ?_⟩
  exact (c6_read_missing_or_corrupt "oops".data (JValue.jobj [])).2 rfl

/-- C7: for every flat settings object - a JSON object whose field values
are all primitive, as the settings document is - writing it with
`writeJSON` and reading it back with `readJSON` yields the object itself,
whatever default the read is given. -/
theorem c7_write_read_roundtrip (kvs : List (List Char × JValue)) (d : JValue)
    (hflat : ∀ kv ∈ kvs, isPrim kv.2 = true) :
    readJSON (writeJSON (.jobj kvs)) d = (some (stringify (.jobj kvs)), .jobj kvs) := by
  unfold readJSON writeJSON
  dsimp only
  have hne : trimChars (stringify (.jobj kvs)) ≠ [] :=
    trimChars_ne_nil (lbrace_mem_serialize_jobj kvs) (by decide)
  rw [if_neg hne, parseJSON_stringify_flat kvs hflat]

/-- Witness for C7 at a concrete settings object: webhook URL, provider,
frequency, a toggle and a timestamp survive the write/read round trip. -/
theorem c7_write_read_roundtrip_witness :
    (∀ kv ∈ ([("webhookUrl".data, JValue.jstr "https://discord".data),
        ("aiProvider".data, JValue.jstr "gemini".data),
        ("autoDiscoverFrequency".data, JValue.jnum 2),
        ("isAutoDiscoverEnabled".data, JValue.jbool false),
        ("lastAutoDiscoverRun".data, JValue.jnum 1700000000000)] :
        List (List Char × JValue)), isPrim kv.2 = true) ∧
    readJSON (writeJSON (.jobj [("webhookUrl".data, JValue.jstr "https://discord".data),
        ("aiProvider".data, JValue.jstr "gemini".data),
        ("autoDiscoverFrequency".data, JValue.jnum 2),
        ("isAutoDiscoverEnabled".data, JValue.jbool false),
        ("lastAutoDiscoverRun".data, JValue.jnum 1700000000000)])) JValue.null =
      (some (stringify (.jobj [("webhookUrl".data, JValue.jstr "https://discord".data),
        ("aiProvider".data, JValue.jstr "gemini".data),
        ("autoDiscoverFrequency".data, JValue.jnum 2),
        ("isAutoDiscoverEnabled".data, JValue.jbool false),
        ("lastAutoDiscoverRun".data, JValue.jnum 1700000000000)])),
       .jobj [("webhookUrl".data, JValue.jstr "https://discord".data),
        ("aiProvider".data, JValue.jstr "gemini".data),
        ("autoDiscoverFrequency".data, JValue.jnum 2),
        ("isAutoDiscoverEnabled".data, JValue.jbool false),
        ("lastAutoDiscoverRun".data, JValue.jnum 1700000000000)]) := by
  refine ⟨by intro kv hkv; fin_cases hkv <;> rfl, ?_⟩
  exact c7_write_read_roundtrip _ JValue.null (by intro kv hkv; fin_cases hkv <;> rfl)

end Noon
